import Mathlib

/-!
Verification of the ACIS BREP entity-graph model, its load/export pipeline
and the surrounding entity registries, embedded shallowly in Lean.

Graph nodes live in per-type arenas; an entity reference is a `Nat` where
`0` is the distinguished none-entity sentinel and `i ≥ 1` addresses the
`i`-th node of the arena (1-based), so that node identity is index
equality and "the same instance" means "the same index".
-/

namespace AcisSpec

/-- Modelled from the spec: stored real values (the module storing doubles is
absent from src). Finite rationals model the exactly representable doubles
appearing in the data, plus the two infinities used for unbounded
parameter ranges of surfaces. -/
inductive XReal where
  | val (q : ℚ)
  | pinf
  | ninf
deriving DecidableEq, Repr

/-- The `math.isinf` test on a stored real. -/
def XReal.isInf : XReal → Bool
  | .pinf => true
  | .ninf => true
  | .val _ => false

abbrev Vec3 := XReal × XReal × XReal

/-- Shorthand for a finite stored real. -/
def xr (q : ℚ) : XReal := XReal.val q

/-- Modelled from the spec: the `Transform` node — a 4×4 affine matrix
(list of four rows) plus explicitly stored rotation/reflection/shear flags. -/
structure Transform where
  matrix : List (List XReal)
  rotate : Bool
  reflect : Bool
  shear : Bool
deriving DecidableEq, Repr

/-- Modelled from the spec: `Body` — references its first Lump, an optional
Wire and a Transform. -/
structure Body where
  lump : Nat
  wire : Nat
  transform : Nat
deriving DecidableEq, Repr

/-- Modelled from the spec: `Lump` — first Shell, `next_lump`, back-reference
to its Body. -/
structure Lump where
  next_lump : Nat
  shell : Nat
  body : Nat
deriving DecidableEq, Repr

/-- Modelled from the spec: `Shell` — first Face, `next_shell`, back-reference
to its Lump. -/
structure Shell where
  next_shell : Nat
  face : Nat
  lump : Nat
deriving DecidableEq, Repr

/-- Modelled from the spec: `Face` — `next_face`, first Loop, surface,
orientation flags, back-reference to its Shell. -/
structure Face where
  next_face : Nat
  loop : Nat
  shell : Nat
  surface : Nat
  sense : Bool
  double_sided : Bool
  containment : Bool
deriving DecidableEq, Repr

/-- Modelled from the spec: `Loop` — first Coedge, `next_loop`, back-reference
to its Face. -/
structure Loop where
  next_loop : Nat
  coedge : Nat
  face : Nat
deriving DecidableEq, Repr

/-- Modelled from the spec: `Coedge` — `next_coedge`/`prev_coedge` within the
loop, `partner_coedge` on the adjoining face, sense flag, back-references
to its Loop and its Edge. -/
structure Coedge where
  next_coedge : Nat
  prev_coedge : Nat
  partner_coedge : Nat
  sense : Bool
  loop : Nat
  edge : Nat
deriving DecidableEq, Repr

/-- Modelled from the spec and the vertex test: `Edge` — start/end Vertex,
sense flag, underlying Curve, back-reference to one of its Coedges. -/
structure Edge where
  start_vertex : Nat
  end_vertex : Nat
  sense : Bool
  curve : Nat
  coedge : Nat
deriving DecidableEq, Repr

/-- Modelled from the spec: `Vertex` — references one Point; the parent-edge
back-reference observed in the tests (`vertex.edge`) is included. -/
structure Vertex where
  point : Nat
  edge : Nat
deriving DecidableEq, Repr

/-- Modelled from the spec: `Point` — a 3D location. -/
structure Point where
  location : Vec3
deriving DecidableEq, Repr

/-- Modelled from the spec: a surface node (e.g. a plane: origin, normal,
u-direction, bounded or unbounded parameter ranges), carrying its type tag. -/
structure Surface where
  typ : String
  origin : Vec3
  normal : Vec3
  u_dir : Vec3
  u_bounds : XReal × XReal
  v_bounds : XReal × XReal
deriving DecidableEq, Repr

/-- Modelled from the spec: a curve node carrying its type tag (the claims
only inspect the tag of the underlying curve, e.g. `straight-curve`). -/
structure Curve where
  typ : String
deriving DecidableEq, Repr

/-- Modelled from the spec: the entity graph as one arena per node type;
references are 1-based indices into these arenas, `0` is the none-entity. -/
structure Graph where
  bodies : List Body
  lumps : List Lump
  shells : List Shell
  faces : List Face
  loops : List Loop
  coedges : List Coedge
  edges : List Edge
  vertices : List Vertex
  points : List Point
  surfaces : List Surface
  curves : List Curve
  transforms : List Transform
deriving DecidableEq, Repr

/-- Dereference a 1-based arena index; `0` and out-of-range yield the
default (none-entity placeholder). -/
def refGet (xs : List α) (d : α) (r : Nat) : α :=
  if r = 0 then d else xs.getD (r - 1) d

/-- A reference is valid when it addresses an existing arena slot. -/
def validIdx (len r : Nat) : Prop := 1 ≤ r ∧ r ≤ len

instance (len r : Nat) : Decidable (validIdx len r) := by
  unfold validIdx; infer_instance

/-- None-entity placeholders: all reference fields `0`. -/
def noneBody : Body := ⟨0, 0, 0⟩

def noneLump : Lump := ⟨0, 0, 0⟩

def noneShell : Shell := ⟨0, 0, 0⟩

def noneFace : Face := ⟨0, 0, 0, 0, false, false, false⟩

def noneLoop : Loop := ⟨0, 0, 0⟩

def noneCoedge : Coedge := ⟨0, 0, 0, false, 0, 0⟩

def noneEdge : Edge := ⟨0, 0, false, 0, 0⟩

def noneVertex : Vertex := ⟨0, 0⟩

def nonePoint : Point := ⟨(xr 0, xr 0, xr 0)⟩

def noneSurface : Surface := ⟨"none", (xr 0, xr 0, xr 0), (xr 0, xr 0, xr 0),
  (xr 0, xr 0, xr 0), (xr 0, xr 0), (xr 0, xr 0)⟩

def noneCurve : Curve := ⟨"none"⟩

def Graph.bodyAt (g : Graph) (r : Nat) : Body := refGet g.bodies noneBody r

def Graph.lumpAt (g : Graph) (r : Nat) : Lump := refGet g.lumps noneLump r

def Graph.shellAt (g : Graph) (r : Nat) : Shell := refGet g.shells noneShell r

def Graph.faceAt (g : Graph) (r : Nat) : Face := refGet g.faces noneFace r

def Graph.loopAt (g : Graph) (r : Nat) : Loop := refGet g.loops noneLoop r

def Graph.coedgeAt (g : Graph) (r : Nat) : Coedge := refGet g.coedges noneCoedge r

def Graph.edgeAt (g : Graph) (r : Nat) : Edge := refGet g.edges noneEdge r

def Graph.vertexAt (g : Graph) (r : Nat) : Vertex := refGet g.vertices noneVertex r

def Graph.pointAt (g : Graph) (r : Nat) : Point := refGet g.points nonePoint r

def Graph.surfaceAt (g : Graph) (r : Nat) : Surface := refGet g.surfaces noneSurface r

/-- The `next_coedge` successor function on coedge references. -/
def nextCo (g : Graph) (r : Nat) : Nat := (g.coedgeAt r).next_coedge

/-- The `prev_coedge` predecessor function on coedge references. -/
def prevCo (g : Graph) (r : Nat) : Nat := (g.coedgeAt r).prev_coedge

/-- The `partner_coedge` function on coedge references. -/
def partnerCo (g : Graph) (r : Nat) : Nat := (g.coedgeAt r).partner_coedge

/-- The `next_face` successor function on face references. -/
def nextFa (g : Graph) (r : Nat) : Nat := (g.faceAt r).next_face

/-- The `next_shell` successor function on shell references. -/
def nextSh (g : Graph) (r : Nat) : Nat := (g.shellAt r).next_shell

/-- The `next_lump` successor function on lump references. -/
def nextLu (g : Graph) (r : Nat) : Nat := (g.lumpAt r).next_lump

/-! ### The loaded cube graph

Modelled from the spec and the cube test fixture: the entity graph produced
by loading the valid single-solid cube input (the ACIS loader itself is
absent from src, so the loaded result is reconstructed from the spec's data
model and the fixture's expected values).  The cube has corner coordinate
magnitude 388.5, one body/lump/shell, six faces, one loop of four coedges
per face, twelve edges and eight vertices/points. -/

/-- Half edge length of the cube fixture (388.5 = 777/2, written as a
normal-form rational so that it evaluates by kernel reduction). -/
def cc : ℚ := ⟨777, 2, by decide, by norm_num [Nat.Coprime]⟩

/-- Corner points of the cube, in arena order `p1 … p8`. -/
def cubePoints : List Point :=
  [⟨(xr cc, xr (-cc), xr cc)⟩,    -- p1 (+,-,+)
   ⟨(xr cc, xr cc, xr cc)⟩,       -- p2 (+,+,+)
   ⟨(xr (-cc), xr cc, xr cc)⟩,    -- p3 (-,+,+)
   ⟨(xr (-cc), xr (-cc), xr cc)⟩, -- p4 (-,-,+)
   ⟨(xr cc, xr (-cc), xr (-cc))⟩, -- p5 (+,-,-)
   ⟨(xr cc, xr cc, xr (-cc))⟩,    -- p6 (+,+,-)
   ⟨(xr (-cc), xr cc, xr (-cc))⟩, -- p7 (-,+,-)
   ⟨(xr (-cc), xr (-cc), xr (-cc))⟩] -- p8 (-,-,-)

/-- Vertices `v1 … v8`: vertex `i` references point `i` and edge `i`
(each `v i` is the start vertex of edge `i`). -/
def cubeVertices : List Vertex :=
  [⟨1, 1⟩, ⟨2, 2⟩, ⟨3, 3⟩, ⟨4, 4⟩, ⟨5, 5⟩, ⟨6, 6⟩, ⟨7, 7⟩, ⟨8, 8⟩]

/-- Edges `e1 … e12`: top ring `e1–e4`, bottom ring `e5–e8`, vertical
`e9–e12`; fields are (start, end, sense, curve, coedge back-reference). -/
def cubeEdges : List Edge :=
  [⟨1, 2, false, 1, 1⟩,   -- e1  v1→v2
   ⟨2, 3, false, 2, 2⟩,   -- e2  v2→v3
   ⟨3, 4, false, 3, 3⟩,   -- e3  v3→v4
   ⟨4, 1, false, 4, 4⟩,   -- e4  v4→v1
   ⟨5, 6, false, 5, 5⟩,   -- e5  v5→v6
   ⟨6, 7, false, 6, 6⟩,   -- e6  v6→v7
   ⟨7, 8, false, 7, 7⟩,   -- e7  v7→v8
   ⟨8, 5, false, 8, 8⟩,   -- e8  v8→v5
   ⟨1, 5, false, 9, 12⟩,  -- e9  v1→v5
   ⟨2, 6, false, 10, 10⟩, -- e10 v2→v6
   ⟨3, 7, false, 11, 14⟩, -- e11 v3→v7
   ⟨4, 8, false, 12, 18⟩] -- e12 v4→v8

/-- Coedges `c1 … c24`, four per face loop; fields are
(next, prev, partner, sense, loop, edge). -/
def cubeCoedges : List Coedge :=
  [⟨2, 4, 9, false, 1, 1⟩,    -- c1  loop1 e1
   ⟨3, 1, 13, false, 1, 2⟩,   -- c2  loop1 e2
   ⟨4, 2, 17, false, 1, 3⟩,   -- c3  loop1 e3
   ⟨1, 3, 21, false, 1, 4⟩,   -- c4  loop1 e4
   ⟨6, 8, 11, false, 2, 5⟩,   -- c5  loop2 e5
   ⟨7, 5, 15, false, 2, 6⟩,   -- c6  loop2 e6
   ⟨8, 6, 19, false, 2, 7⟩,   -- c7  loop2 e7
   ⟨5, 7, 23, false, 2, 8⟩,   -- c8  loop2 e8
   ⟨10, 12, 1, false, 3, 1⟩,  -- c9  loop3 e1
   ⟨11, 9, 16, false, 3, 10⟩, -- c10 loop3 e10
   ⟨12, 10, 5, false, 3, 5⟩,  -- c11 loop3 e5
   ⟨9, 11, 22, false, 3, 9⟩,  -- c12 loop3 e9
   ⟨14, 16, 2, false, 4, 2⟩,  -- c13 loop4 e2
   ⟨15, 13, 20, false, 4, 11⟩, -- c14 loop4 e11
   ⟨16, 14, 6, false, 4, 6⟩,  -- c15 loop4 e6
   ⟨13, 15, 10, false, 4, 10⟩, -- c16 loop4 e10
   ⟨18, 20, 3, false, 5, 3⟩,  -- c17 loop5 e3
   ⟨19, 17, 24, false, 5, 12⟩, -- c18 loop5 e12
   ⟨20, 18, 7, false, 5, 7⟩,  -- c19 loop5 e7
   ⟨17, 19, 14, false, 5, 11⟩, -- c20 loop5 e11
   ⟨22, 24, 4, false, 6, 4⟩,  -- c21 loop6 e4
   ⟨23, 21, 12, false, 6, 9⟩, -- c22 loop6 e9
   ⟨24, 22, 8, false, 6, 8⟩,  -- c23 loop6 e8
   ⟨21, 23, 18, false, 6, 12⟩] -- c24 loop6 e12

/-- Loops `l1 … l6`: loop `i` starts at coedge `4·i − 3` and belongs to
face `i`; each face of the cube carries exactly one loop. -/
def cubeLoops : List Loop :=
  [⟨0, 1, 1⟩, ⟨0, 5, 2⟩, ⟨0, 9, 3⟩, ⟨0, 13, 4⟩, ⟨0, 17, 5⟩, ⟨0, 21, 6⟩]

/-- Faces `f1 … f6` in a linear `next_face` chain ending at the
none-entity; fields are (next, loop, shell, surface, sense, double_sided,
containment). -/
def cubeFaces : List Face :=
  [⟨2, 1, 1, 1, false, false, false⟩,
   ⟨3, 2, 1, 2, false, false, false⟩,
   ⟨4, 3, 1, 3, false, false, false⟩,
   ⟨5, 4, 1, 4, false, false, false⟩,
   ⟨6, 5, 1, 5, false, false, false⟩,
   ⟨0, 6, 1, 6, false, false, false⟩]

/-- The six unbounded planes carrying the cube faces; the first is the top
plane `z = 388.5` with normal `(0,0,1)` and u-direction `(1,0,0)`. -/
def cubeSurfaces : List Surface :=
  [⟨"plane-surface", (xr 0, xr 0, xr cc), (xr 0, xr 0, xr 1), (xr 1, xr 0, xr 0),
    (XReal.ninf, XReal.pinf), (XReal.ninf, XReal.pinf)⟩,
   ⟨"plane-surface", (xr 0, xr 0, xr (-cc)), (xr 0, xr 0, xr (-1)), (xr 1, xr 0, xr 0),
    (XReal.ninf, XReal.pinf), (XReal.ninf, XReal.pinf)⟩,
   ⟨"plane-surface", (xr cc, xr 0, xr 0), (xr 1, xr 0, xr 0), (xr 0, xr 1, xr 0),
    (XReal.ninf, XReal.pinf), (XReal.ninf, XReal.pinf)⟩,
   ⟨"plane-surface", (xr 0, xr cc, xr 0), (xr 0, xr 1, xr 0), (xr (-1), xr 0, xr 0),
    (XReal.ninf, XReal.pinf), (XReal.ninf, XReal.pinf)⟩,
   ⟨"plane-surface", (xr (-cc), xr 0, xr 0), (xr (-1), xr 0, xr 0), (xr 0, xr (-1), xr 0),
    (XReal.ninf, XReal.pinf), (XReal.ninf, XReal.pinf)⟩,
   ⟨"plane-surface", (xr 0, xr (-cc), xr 0), (xr 0, xr (-1), xr 0), (xr 1, xr 0, xr 0),
    (XReal.ninf, XReal.pinf), (XReal.ninf, XReal.pinf)⟩]

/-- The twelve straight-line curves under the cube edges. -/
def cubeCurves : List Curve := List.replicate 12 ⟨"straight-curve"⟩

/-- The body transform of the cube fixture: identity rotation with
translation row `(388.5, 388.5, 388.5, 1)`. -/
def cubeTransform : Transform :=
  ⟨[[xr 1, xr 0, xr 0, xr 0],
    [xr 0, xr 1, xr 0, xr 0],
    [xr 0, xr 0, xr 1, xr 0],
    [xr cc, xr cc, xr cc, xr 1]], false, false, false⟩

/-- The complete loaded cube graph. -/
def cubeGraph : Graph :=
  { bodies := [⟨1, 0, 1⟩]
    lumps := [⟨0, 1, 1⟩]
    shells := [⟨0, 1, 1⟩]
    faces := cubeFaces
    loops := cubeLoops
    coedges := cubeCoedges
    edges := cubeEdges
    vertices := cubeVertices
    points := cubePoints
    surfaces := cubeSurfaces
    curves := cubeCurves
    transforms := [cubeTransform] }

/-! ### Traversal helpers and structural well-formedness

The well-formedness predicates below transcribe the spec's description of
the pointer structure in primitive local form ("closed circular
doubly-linked list", "linear singly-linked list terminated by the
none-entity"); the traversal claims are then derived from them. -/

/-- Follow `f` from `s` collecting references until the none-entity `0`
is reached or the fuel runs out. -/
def chainList (f : Nat → Nat) : Nat → Nat → List Nat
  | _, 0 => []
  | s, fuel + 1 => if s = 0 then [] else s :: chainList f (f s) fuel

/-- The set of coedge references reachable from `c0` by iterating
`next_coedge` (any number of steps up to the arena size covers all). -/
def orbitSet (g : Graph) (c0 : Nat) : Finset Nat :=
  Finset.image (fun k => (nextCo g)^[k] c0) (Finset.range (g.coedges.length + 1))

/-- The number of distinct coedges reachable from `c0` via `next_coedge`. -/
def orbitCard (g : Graph) (c0 : Nat) : Nat := (orbitSet g c0).card

/-- Doubly-linked well-formedness of an arena of size `len` under successor
`nxt` and predecessor `prv`: both stay on valid nodes and invert each
other (the spec's "closed circular doubly-linked list" in local form). -/
def dllWF (len : Nat) (nxt prv : Nat → Nat) : Prop :=
  ∀ r < len + 1, 1 ≤ r →
    (validIdx len (nxt r) ∧ validIdx len (prv r) ∧ prv (nxt r) = r ∧ nxt (prv r) = r)

/-- The partner relation of the coedges of `g` is none or symmetric,
exactly the spec's invariant on `partner_coedge`. -/
def partnerWF (g : Graph) : Prop :=
  ∀ r < g.coedges.length + 1, 1 ≤ r →
    (partnerCo g r = 0 ∨
      (validIdx g.coedges.length (partnerCo g r) ∧ partnerCo g (partnerCo g r) = r))

/-- Linear-list well-formedness of successor `f` on an arena of size `len`
with head `start`: every valid node's successor is the none-entity or
valid, `f` is injective on valid nodes where nonzero, and no valid node
points back at the head (the spec's "linear singly-linked list"). -/
def linWF (len : Nat) (f : Nat → Nat) (start : Nat) : Prop :=
  (∀ r < len + 1, 1 ≤ r → (f r = 0 ∨ validIdx len (f r))) ∧
  (∀ r < len + 1, ∀ s < len + 1, (1 ≤ r ∧ 1 ≤ s ∧ f r = f s ∧ f r ≠ 0) → r = s) ∧
  (∀ r < len + 1, 1 ≤ r → f r ≠ start)

instance (len : Nat) (nxt prv : Nat → Nat) : Decidable (dllWF len nxt prv) := by
  unfold dllWF; infer_instance

instance (g : Graph) : Decidable (partnerWF g) := by
  unfold partnerWF; infer_instance

instance (len : Nat) (f : Nat → Nat) (start : Nat) : Decidable (linWF len f start) := by
  unfold linWF; infer_instance

/-- The coedges of the loop starting at `c0`, in `next_coedge` order. -/
def loopCoedges (g : Graph) (c0 : Nat) : List Nat :=
  (List.range (orbitCard g c0)).map (fun k => (nextCo g)^[k] c0)

/-- The faces of the first body's first shell, collected along `next_face`
from the shell's first face. -/
def faceChain (g : Graph) : List Nat :=
  chainList (nextFa g) (g.shellAt (g.lumpAt (g.bodyAt 1).lump).shell).face
    (g.faces.length + 1)

/-- The location of the start-vertex point of the edge under coedge `cr`. -/
def startLocation (g : Graph) (cr : Nat) : Vec3 :=
  (g.pointAt (g.vertexAt (g.edgeAt (g.coedgeAt cr).edge).start_vertex).point).location

/-- All Edge start-vertex point locations collected over all faces of the
first body, as the cube point test collects them. -/
def allStartLocations (g : Graph) : Finset Vec3 :=
  (((faceChain g).flatMap
      (fun fr => loopCoedges g ((g.loopAt (g.faceAt fr).loop).coedge))).map
    (startLocation g)).toFinset

/-! ### Generic linked-list traversal lemmas -/

/-- If two iterates of an injective-on-valid successor agree, and the whole
path up to the later one is valid, the equality descends to the start. -/
theorem lin_descend (len : Nat) (f : Nat → Nat) (start : Nat)
    (hinj : ∀ r < len + 1, ∀ s < len + 1, (1 ≤ r ∧ 1 ≤ s ∧ f r = f s ∧ f r ≠ 0) → r = s) :
    ∀ i j, i ≤ j → (∀ k ≤ j, validIdx len (f^[k] start)) →
      f^[i] start = f^[j] start → start = f^[j - i] start := by
  intro i
  induction i with
  | zero => intro j _ _ h; simpa using h
  | succ i ih =>
    intro j hij hval heq
    have hj1 : 1 ≤ j := le_trans (Nat.succ_le_succ (Nat.zero_le i)) hij
    have hji : j = (j - 1) + 1 := (Nat.succ_pred_eq_of_pos hj1).symm
    have heq' : f (f^[i] start) = f (f^[j - 1] start) := by
      calc f (f^[i] start) = f^[i + 1] start := (Function.iterate_succ_apply' f i start).symm
        _ = f^[j] start := heq
        _ = f^[(j - 1) + 1] start := by rw [← hji]
        _ = f (f^[j - 1] start) := Function.iterate_succ_apply' f (j - 1) start
    have hvi : validIdx len (f^[i] start) := hval i (le_trans (Nat.le_succ i) hij)
    have hvj : validIdx len (f^[j - 1] start) := hval (j - 1) (Nat.sub_le j 1)
    have hvsi : validIdx len (f^[i + 1] start) := hval (i + 1) hij
    have hne : f (f^[i] start) ≠ 0 := by
      rw [← Function.iterate_succ_apply' f i start]
      exact Nat.one_le_iff_ne_zero.mp hvsi.1
    have hii : f^[i] start = f^[j - 1] start :=
      hinj _ (Nat.lt_succ_of_le hvi.2) _ (Nat.lt_succ_of_le hvj.2)
        ⟨hvi.1, hvj.1, heq', hne⟩
    have := ih (j - 1) (by omega) (fun k hk => hval k (le_trans hk (Nat.sub_le j 1))) hii
    rwa [show j - 1 - i = j - (i + 1) by omega] at this

/-- Traversing a well-formed linear list from its head reaches the
none-entity sentinel within as many steps as the arena holds nodes, and
every intermediate reference is valid. -/
theorem lin_terminates (len : Nat) (f : Nat → Nat) (start : Nat)
    (hwf : linWF len f start) (hs : validIdx len start) :
    ∃ n, n ≤ len ∧ f^[n] start = 0 ∧ ∀ k < n, validIdx len (f^[k] start) := by
  obtain ⟨hcl, hinj, hback⟩ := hwf
  -- not all of the first len+1 path values can be valid
  have hstop : ∃ k, k ≤ len ∧ ¬ validIdx len (f^[k] start) := by
    by_contra hall
    push_neg at hall
    have hmaps : ∀ a ∈ Finset.range (len + 1),
        (fun k => f^[k] start) a ∈ Finset.Icc 1 len := by
      intro a ha
      have := hall a (Nat.lt_succ_iff.mp (Finset.mem_range.mp ha))
      exact Finset.mem_Icc.mpr ⟨this.1, this.2⟩
    have hcard : (Finset.Icc 1 len).card < (Finset.range (len + 1)).card := by
      rw [Nat.card_Icc, Finset.card_range]; omega
    obtain ⟨x, hx, y, hy, hxy, hfxy⟩ :=
      Finset.exists_ne_map_eq_of_card_lt_of_maps_to hcard hmaps
    have hx' := Nat.lt_succ_iff.mp (Finset.mem_range.mp hx)
    have hy' := Nat.lt_succ_iff.mp (Finset.mem_range.mp hy)
    have key : ∀ a b, a < b → b ≤ len → f^[a] start = f^[b] start → False := by
      intro a b hab hbl hfab
      have hret := lin_descend len f start hinj a b (le_of_lt hab)
        (fun k hk => hall k (le_trans hk hbl)) hfab
      have hrm : b - a = (b - a - 1) + 1 := by omega
      have hstart : start = f (f^[b - a - 1] start) := by
        calc start = f^[b - a] start := hret
          _ = f^[(b - a - 1) + 1] start := by rw [← hrm]
          _ = f (f^[b - a - 1] start) := Function.iterate_succ_apply' f (b - a - 1) start
      exact hback _ (Nat.lt_succ_of_le (hall (b - a - 1) (by omega)).2)
        (hall (b - a - 1) (by omega)).1 hstart.symm
    rcases lt_or_gt_of_ne hxy with hlt | hgt
    · exact key x y hlt hy' hfxy
    · exact key y x hgt hx' hfxy.symm
  obtain ⟨k0, hk0, hk0v⟩ := hstop
  have hex : ∃ k, ¬ validIdx len (f^[k] start) := ⟨k0, hk0v⟩
  classical
  let n := Nat.find hex
  have hn : ¬ validIdx len (f^[n] start) := Nat.find_spec hex
  have hmin : ∀ m < n, validIdx len (f^[m] start) := by
    intro m hm
    by_contra hmv
    exact absurd (Nat.find_min hex hm) (fun h => h hmv)
  have hnle : n ≤ len := Nat.find_min' hex hk0v |>.trans hk0
  have hnpos : 0 < n := by
    rcases Nat.eq_zero_or_pos n with h0 | h
    · exfalso; apply hn; rw [h0]; simpa using hs
    · exact h
  have hzero : f^[n] start = 0 := by
    have hmm : n = (n - 1) + 1 := by omega
    have hprev : validIdx len (f^[n - 1] start) := hmin (n - 1) (by omega)
    have := hcl (f^[n - 1] start) (Nat.lt_succ_of_le hprev.2) hprev.1
    rcases this with h0 | hv
    · rw [hmm, Function.iterate_succ_apply' f (n - 1) start]; exact h0
    · exfalso; apply hn
      rw [hmm, Function.iterate_succ_apply' f (n - 1) start]; exact hv
  exact ⟨n, hnle, hzero, hmin⟩

/-! ### Generic circular doubly-linked list lemmas -/

/-- In a well-formed doubly-linked arena every iterate of the successor
from a valid node is valid. -/
theorem dll_iterate_valid (len : Nat) (nxt prv : Nat → Nat)
    (hwf : dllWF len nxt prv) (c0 : Nat) (hc0 : validIdx len c0) :
    ∀ k, validIdx len (nxt^[k] c0) := by
  intro k
  induction k with
  | zero => simpa using hc0
  | succ k ih =>
    rw [Function.iterate_succ_apply' nxt k c0]
    exact (hwf _ (Nat.lt_succ_of_le ih.2) ih.1).1

/-- Equal iterates of the successor of a well-formed doubly-linked arena
descend to an equality with the start (the predecessor inverts each step). -/
theorem dll_descend (len : Nat) (nxt prv : Nat → Nat)
    (hwf : dllWF len nxt prv) (c0 : Nat) (hc0 : validIdx len c0) :
    ∀ i j, i ≤ j → nxt^[i] c0 = nxt^[j] c0 → c0 = nxt^[j - i] c0 := by
  intro i
  induction i with
  | zero => intro j _ h; simpa using h
  | succ i ih =>
    intro j hij heq
    have hj1 : 1 ≤ j := le_trans (Nat.succ_le_succ (Nat.zero_le i)) hij
    have hji : j = (j - 1) + 1 := (Nat.succ_pred_eq_of_pos hj1).symm
    have heq' : nxt (nxt^[i] c0) = nxt (nxt^[j - 1] c0) := by
      calc nxt (nxt^[i] c0) = nxt^[i + 1] c0 := (Function.iterate_succ_apply' nxt i c0).symm
        _ = nxt^[j] c0 := heq
        _ = nxt^[(j - 1) + 1] c0 := by rw [← hji]
        _ = nxt (nxt^[j - 1] c0) := Function.iterate_succ_apply' nxt (j - 1) c0
    have hvi := dll_iterate_valid len nxt prv hwf c0 hc0 i
    have hvj := dll_iterate_valid len nxt prv hwf c0 hc0 (j - 1)
    have hii : nxt^[i] c0 = nxt^[j - 1] c0 := by
      have h1 := (hwf _ (Nat.lt_succ_of_le hvi.2) hvi.1).2.2.1
      have h2 := (hwf _ (Nat.lt_succ_of_le hvj.2) hvj.1).2.2.1
      calc nxt^[i] c0 = prv (nxt (nxt^[i] c0)) := h1.symm
        _ = prv (nxt (nxt^[j - 1] c0)) := by rw [heq']
        _ = nxt^[j - 1] c0 := h2
    have := ih (j - 1) (by omega) hii
    rwa [show j - 1 - i = j - (i + 1) by omega] at this

/-- The successor of a well-formed doubly-linked arena returns to its start:
there is a positive return time within the arena size. -/
theorem dll_exists_return (len : Nat) (nxt prv : Nat → Nat)
    (hwf : dllWF len nxt prv) (c0 : Nat) (hc0 : validIdx len c0) :
    ∃ m, 0 < m ∧ m ≤ len ∧ nxt^[m] c0 = c0 := by
  have hmaps : ∀ a ∈ Finset.range (len + 1),
      (fun k => nxt^[k] c0) a ∈ Finset.Icc 1 len := by
    intro a _
    have := dll_iterate_valid len nxt prv hwf c0 hc0 a
    exact Finset.mem_Icc.mpr ⟨this.1, this.2⟩
  have hcard : (Finset.Icc 1 len).card < (Finset.range (len + 1)).card := by
    rw [Nat.card_Icc, Finset.card_range]; omega
  obtain ⟨x, hx, y, hy, hxy, hfxy⟩ :=
    Finset.exists_ne_map_eq_of_card_lt_of_maps_to hcard hmaps
  have hx' := Nat.lt_succ_iff.mp (Finset.mem_range.mp hx)
  have hy' := Nat.lt_succ_iff.mp (Finset.mem_range.mp hy)
  have key : ∀ a b, a < b → b ≤ len → nxt^[a] c0 = nxt^[b] c0 →
      ∃ m, 0 < m ∧ m ≤ len ∧ nxt^[m] c0 = c0 := by
    intro a b hab hbl hfab
    refine ⟨b - a, by omega, by omega, ?_⟩
    exact (dll_descend len nxt prv hwf c0 hc0 a b (le_of_lt hab) hfab).symm
  rcases lt_or_gt_of_ne hxy with hlt | hgt
  · exact key x y hlt hy' hfxy
  · exact key y x hgt hx' hfxy.symm

/-- The path of a periodic successor repeats with its period. -/
theorem iterate_mod_period (f : Nat → Nat) (c0 : Nat) (p : Nat) (hp : 0 < p)
    (hret : f^[p] c0 = c0) : ∀ k, f^[k] c0 = f^[k % p] c0 := by
  intro k
  induction k using Nat.strong_induction_on with
  | _ k ih =>
    by_cases hk : k < p
    · rw [Nat.mod_eq_of_lt hk]
    · push_neg at hk
      have hkp : k = (k - p) + p := by omega
      have h1 : f^[k] c0 = f^[k - p] c0 := by
        calc f^[k] c0 = f^[(k - p) + p] c0 := by rw [← hkp]
          _ = f^[k - p] (f^[p] c0) := Function.iterate_add_apply f (k - p) p c0
          _ = f^[k - p] c0 := by rw [hret]
      rw [h1, ih (k - p) (by omega)]
      have hmod : k % p = (k - p) % p := by
        conv_lhs => rw [hkp]
        exact Nat.add_mod_right (k - p) p
      rw [hmod]

/-- Closed-cycle behaviour of a well-formed doubly-linked arena: from any
valid start the successor first returns to it after exactly `N` steps,
where `N` is the number of distinct reachable nodes, and the predecessor
walks the same cycle backwards. -/
theorem dll_cycle (len : Nat) (nxt prv : Nat → Nat)
    (hwf : dllWF len nxt prv) (c0 : Nat) (hc0 : validIdx len c0) :
    0 < (Finset.image (fun k => nxt^[k] c0) (Finset.range (len + 1))).card ∧
    nxt^[(Finset.image (fun k => nxt^[k] c0) (Finset.range (len + 1))).card] c0 = c0 ∧
    (∀ k, 0 < k →
      k < (Finset.image (fun k => nxt^[k] c0) (Finset.range (len + 1))).card →
      nxt^[k] c0 ≠ c0) ∧
    (∀ k, k ≤ (Finset.image (fun k => nxt^[k] c0) (Finset.range (len + 1))).card →
      prv^[k] c0 =
        nxt^[(Finset.image (fun k => nxt^[k] c0) (Finset.range (len + 1))).card - k] c0) := by
  classical
  obtain ⟨m0, hm0p, hm0l, hm0r⟩ := dll_exists_return len nxt prv hwf c0 hc0
  have hex : ∃ m, 0 < m ∧ nxt^[m] c0 = c0 := ⟨m0, hm0p, hm0r⟩
  set n0 := Nat.find hex with hn0def
  obtain ⟨hn0p, hn0r⟩ : 0 < n0 ∧ nxt^[n0] c0 = c0 := Nat.find_spec hex
  have hn0le : n0 ≤ len := le_trans (Nat.find_min' hex ⟨hm0p, hm0r⟩) hm0l
  have hmin : ∀ k, 0 < k → k < n0 → nxt^[k] c0 ≠ c0 := by
    intro k hkp hkn hkr
    exact Nat.find_min hex hkn ⟨hkp, hkr⟩
  have hinj : Set.InjOn (fun k => nxt^[k] c0) (Finset.range n0) := by
    intro i hi j hj hij
    simp only [Finset.coe_range, Set.mem_Iio] at hi hj
    by_contra hne
    have key : ∀ a b, a < b → b < n0 → nxt^[a] c0 = nxt^[b] c0 → False := by
      intro a b hab hbl hfab
      have := dll_descend len nxt prv hwf c0 hc0 a b (le_of_lt hab) hfab
      exact hmin (b - a) (by omega) (by omega) this.symm
    rcases lt_or_gt_of_ne hne with hlt | hgt
    · exact key i j hlt hj hij
    · exact key j i hgt hi hij.symm
  have him : Finset.image (fun k => nxt^[k] c0) (Finset.range (len + 1)) =
      Finset.image (fun k => nxt^[k] c0) (Finset.range n0) := by
    apply Finset.Subset.antisymm
    · intro x hx
      obtain ⟨k, _, rfl⟩ := Finset.mem_image.mp hx
      exact Finset.mem_image.mpr ⟨k % n0, Finset.mem_range.mpr (Nat.mod_lt _ hn0p),
        (iterate_mod_period nxt c0 n0 hn0p hn0r k).symm⟩
    · exact Finset.image_subset_image (Finset.range_subset.mpr (by omega))
  have hcard : (Finset.image (fun k => nxt^[k] c0) (Finset.range (len + 1))).card = n0 := by
    rw [him, Finset.card_image_of_injOn hinj, Finset.card_range]
  rw [hcard]
  refine ⟨hn0p, hn0r, hmin, ?_⟩
  intro k
  induction k with
  | zero => intro _; simpa using hn0r.symm
  | succ k ih =>
    intro hk1
    have hkn : k ≤ n0 := le_trans (Nat.le_succ k) hk1
    have hih := ih hkn
    have hsub : n0 - k = (n0 - (k + 1)) + 1 := by omega
    have hvprev : validIdx len (nxt^[n0 - (k + 1)] c0) :=
      dll_iterate_valid len nxt prv hwf c0 hc0 _
    calc prv^[k + 1] c0 = prv (prv^[k] c0) := Function.iterate_succ_apply' prv k c0
      _ = prv (nxt^[n0 - k] c0) := by rw [hih]
      _ = prv (nxt^[(n0 - (k + 1)) + 1] c0) := by rw [← hsub]
      _ = prv (nxt (nxt^[n0 - (k + 1)] c0)) := by
          rw [Function.iterate_succ_apply' nxt (n0 - (k + 1)) c0]
      _ = nxt^[n0 - (k + 1)] c0 :=
          (hwf _ (Nat.lt_succ_of_le hvprev.2) hvprev.1).2.2.1

/-! ### Claim theorems on the entity graph -/

/-- C3: Loop closure — in a loaded graph whose coedges form the spec's
closed circular doubly-linked lists, following `next_coedge` from a loop's
first coedge returns to that coedge after exactly `N` steps, where `N` is
the number of distinct coedges reachable from it (and not earlier), and
following `prev_coedge` visits the same coedges in reverse order,
returning after exactly `N` steps as well. -/
theorem C3_loop_closure (g : Graph)
    (hwf : dllWF g.coedges.length (nextCo g) (prevCo g))
    (lp : Loop) (hlp : lp ∈ g.loops)
    (hc0 : validIdx g.coedges.length lp.coedge) :
    0 < orbitCard g lp.coedge ∧
    (nextCo g)^[orbitCard g lp.coedge] lp.coedge = lp.coedge ∧
    (∀ k, 0 < k → k < orbitCard g lp.coedge → (nextCo g)^[k] lp.coedge ≠ lp.coedge) ∧
    (∀ k, k ≤ orbitCard g lp.coedge →
      (prevCo g)^[k] lp.coedge = (nextCo g)^[orbitCard g lp.coedge - k] lp.coedge) := by
  have h := dll_cycle g.coedges.length (nextCo g) (prevCo g) hwf lp.coedge hc0
  simpa [orbitCard, orbitSet] using h

/-- Witness for C3 at the loaded cube: the first loop's first coedge. -/
theorem C3_loop_closure_witness :
    0 < orbitCard cubeGraph (Loop.coedge ⟨0, 1, 1⟩) ∧
    (nextCo cubeGraph)^[orbitCard cubeGraph (Loop.coedge ⟨0, 1, 1⟩)]
      (Loop.coedge ⟨0, 1, 1⟩) = Loop.coedge ⟨0, 1, 1⟩ ∧
    (∀ k, 0 < k → k < orbitCard cubeGraph (Loop.coedge ⟨0, 1, 1⟩) →
      (nextCo cubeGraph)^[k] (Loop.coedge ⟨0, 1, 1⟩) ≠ Loop.coedge ⟨0, 1, 1⟩) ∧
    (∀ k, k ≤ orbitCard cubeGraph (Loop.coedge ⟨0, 1, 1⟩) →
      (prevCo cubeGraph)^[k] (Loop.coedge ⟨0, 1, 1⟩) =
        (nextCo cubeGraph)^[orbitCard cubeGraph (Loop.coedge ⟨0, 1, 1⟩) - k]
          (Loop.coedge ⟨0, 1, 1⟩)) :=
  C3_loop_closure cubeGraph (by decide) ⟨0, 1, 1⟩ (by decide) (by decide)

/-- C4: Partner symmetry — in a loaded graph satisfying the spec's partner
invariant, every coedge whose `partner_coedge` is not the none-entity is
its partner's partner, as the identical node (the same arena index). -/
theorem C4_partner_symmetry (g : Graph) (hwf : partnerWF g) (c : Nat)
    (hc : validIdx g.coedges.length c) (hnz : partnerCo g c ≠ 0) :
    partnerCo g (partnerCo g c) = c := by
  rcases hwf c (Nat.lt_succ_of_le hc.2) hc.1 with h0 | ⟨_, hsym⟩
  · exact absurd h0 hnz
  · exact hsym

/-- Witness for C4 at the loaded cube: coedge 1's partner is coedge 9 and
vice versa. -/
theorem C4_partner_symmetry_witness :
    partnerCo cubeGraph (partnerCo cubeGraph 1) = 1 :=
  C4_partner_symmetry cubeGraph (by decide) 1 (by decide) (by decide)

/-- C5: Linear list termination — in a loaded graph whose face, shell and
lump successor pointers satisfy the spec's linear-list shape, traversing
`next_face` from a shell's first face, `next_shell` from a lump's first
shell and `next_lump` from a body's first lump reaches the none-entity
sentinel within as many steps as the arena declares nodes of that type,
passing only valid (never dangling) references on the way. -/
theorem C5_list_termination (g : Graph)
    (sh : Shell) (hsh : sh ∈ g.shells) (lu : Lump) (hlu : lu ∈ g.lumps)
    (bo : Body) (hbo : bo ∈ g.bodies)
    (hwf1 : linWF g.faces.length (nextFa g) sh.face)
    (hwf2 : linWF g.shells.length (nextSh g) lu.shell)
    (hwf3 : linWF g.lumps.length (nextLu g) bo.lump)
    (h1 : validIdx g.faces.length sh.face)
    (h2 : validIdx g.shells.length lu.shell)
    (h3 : validIdx g.lumps.length bo.lump) :
    (∃ n, n ≤ g.faces.length ∧ (nextFa g)^[n] sh.face = 0 ∧
      ∀ k < n, validIdx g.faces.length ((nextFa g)^[k] sh.face)) ∧
    (∃ n, n ≤ g.shells.length ∧ (nextSh g)^[n] lu.shell = 0 ∧
      ∀ k < n, validIdx g.shells.length ((nextSh g)^[k] lu.shell)) ∧
    (∃ n, n ≤ g.lumps.length ∧ (nextLu g)^[n] bo.lump = 0 ∧
      ∀ k < n, validIdx g.lumps.length ((nextLu g)^[k] bo.lump)) :=
  ⟨lin_terminates _ _ _ hwf1 h1, lin_terminates _ _ _ hwf2 h2,
   lin_terminates _ _ _ hwf3 h3⟩

/-- Witness for C5 at the loaded cube: its shell, lump and body heads. -/
theorem C5_list_termination_witness :
    (∃ n, n ≤ cubeGraph.faces.length ∧
      (nextFa cubeGraph)^[n] (Shell.face ⟨0, 1, 1⟩) = 0 ∧
      ∀ k < n, validIdx cubeGraph.faces.length
        ((nextFa cubeGraph)^[k] (Shell.face ⟨0, 1, 1⟩))) ∧
    (∃ n, n ≤ cubeGraph.shells.length ∧
      (nextSh cubeGraph)^[n] (Lump.shell ⟨0, 1, 1⟩) = 0 ∧
      ∀ k < n, validIdx cubeGraph.shells.length
        ((nextSh cubeGraph)^[k] (Lump.shell ⟨0, 1, 1⟩))) ∧
    (∃ n, n ≤ cubeGraph.lumps.length ∧
      (nextLu cubeGraph)^[n] (Body.lump ⟨1, 0, 1⟩) = 0 ∧
      ∀ k < n, validIdx cubeGraph.lumps.length
        ((nextLu cubeGraph)^[k] (Body.lump ⟨1, 0, 1⟩))) :=
  C5_list_termination cubeGraph ⟨0, 1, 1⟩ (by decide) ⟨0, 1, 1⟩ (by decide)
    ⟨1, 0, 1⟩ (by decide) (by decide) (by decide) (by decide)
    (by decide) (by decide) (by decide)

/-- C6: Cube scenario — the graph loaded from the valid single-solid cube
input has exactly one root body, one lump with no `next_lump`, six faces
reachable from the shell via `next_face`, one loop of exactly four coedges
per face forming a closed cycle, and exactly eight distinct Edge
start-vertex point locations over all faces. -/
theorem C6_cube_scenario :
    cubeGraph.bodies.length = 1 ∧
    cubeGraph.lumps.length = 1 ∧
    (cubeGraph.lumpAt (cubeGraph.bodyAt 1).lump).next_lump = 0 ∧
    (faceChain cubeGraph).length = 6 ∧
    ((faceChain cubeGraph).all (fun fr =>
      ((cubeGraph.faceAt fr).loop != 0) &&
      ((cubeGraph.loopAt (cubeGraph.faceAt fr).loop).next_loop == 0) &&
      (orbitCard cubeGraph ((cubeGraph.loopAt (cubeGraph.faceAt fr).loop).coedge) == 4) &&
      ((nextCo cubeGraph)^[4] ((cubeGraph.loopAt (cubeGraph.faceAt fr).loop).coedge)
        == (cubeGraph.loopAt (cubeGraph.faceAt fr).loop).coedge)) = true) ∧
    (allStartLocations cubeGraph).card = 8 := by
  decide

/-- The start vertex of the edge of the cube's first face's loop's first
coedge (the vertex the vertex-backreference test inspects). -/
def cubeTestVertex : Nat :=
  (cubeGraph.edgeAt (cubeGraph.coedgeAt
    ((cubeGraph.loopAt (cubeGraph.faceAt (cubeGraph.shellAt (cubeGraph.lumpAt
      (cubeGraph.bodyAt 1).lump).shell).face).loop).coedge)).edge).start_vertex

/-- C9: Vertex back-reference — every vertex of the loaded cube carries an
`edge` back-reference to a valid edge that uses it as one of its
endpoints, and for the cube's inspected start vertex the back-reference is
identity-consistent: `v.edge.start_vertex` is `v` itself (the same arena
index). -/
theorem C9_vertex_backref :
    ((List.range cubeGraph.vertices.length).all (fun i =>
      decide (validIdx cubeGraph.edges.length (cubeGraph.vertexAt (i + 1)).edge)
        && (((cubeGraph.edgeAt (cubeGraph.vertexAt (i + 1)).edge).start_vertex == i + 1)
            || ((cubeGraph.edgeAt (cubeGraph.vertexAt (i + 1)).edge).end_vertex == i + 1)))
      = true) ∧
    (cubeGraph.edgeAt (cubeGraph.vertexAt cubeTestVertex).edge).start_vertex
      = cubeTestVertex := by
  decide

/-- C10: Unbounded plane surfaces — every face of the loaded cube carries a
`plane-surface` whose u and v parameter bounds are all infinite, and the
first face's plane has origin `(0, 0, 388.5)`, normal `(0, 0, 1)` and
u-direction `(1, 0, 0)`. -/
theorem C10_plane_surfaces :
    ((faceChain cubeGraph).all (fun fr =>
      let s := cubeGraph.surfaceAt (cubeGraph.faceAt fr).surface
      (s.typ == "plane-surface") && s.u_bounds.1.isInf && s.u_bounds.2.isInf
        && s.v_bounds.1.isInf && s.v_bounds.2.isInf) = true) ∧
    (cubeGraph.surfaceAt (cubeGraph.faceAt (cubeGraph.shellAt (cubeGraph.lumpAt
      (cubeGraph.bodyAt 1).lump).shell).face).surface).origin = (xr 0, xr 0, xr cc) ∧
    (cubeGraph.surfaceAt (cubeGraph.faceAt (cubeGraph.shellAt (cubeGraph.lumpAt
      (cubeGraph.bodyAt 1).lump).shell).face).surface).normal = (xr 0, xr 0, xr 1) ∧
    (cubeGraph.surfaceAt (cubeGraph.faceAt (cubeGraph.shellAt (cubeGraph.lumpAt
      (cubeGraph.bodyAt 1).lump).shell).face).surface).u_dir = (xr 1, xr 0, xr 0) := by
  decide

/-! ### Generic record layer: codec field values, records, walker, dual
codecs and the load/export pipeline.

Modelled from the spec: the record codec abstraction (a record is a type
name plus an ordered list of typed field values; entity pointers are
stored as ordinal indices, `0` encoding the none-entity), the graph
walker/exporter (first-seen traversal ordinals) and the graph builder
(one node per record in stream order), all absent from src. -/

/-- The tagged union of primitive field values shared by both codecs. -/
inductive FieldVal where
  | intV (i : Int)
  | realV (x : XReal)
  | boolV (b : Bool)
  | strV (s : String)
  | symV (s : String)
  | ptrV (r : Nat)
deriving DecidableEq, Repr

/-- A record: a type name and its ordered typed field values. -/
structure Record where
  typ : String
  fields : List FieldVal
deriving DecidableEq, Repr

/-- The generic entity graph: one record per node, referenced by 1-based
ordinal, `0` being the none-entity. -/
abbrev RecGraph := List Record

/-- Placeholder record returned for the none-entity reference. -/
def noneRecord : Record := ⟨"none", []⟩

/-- Dereference a record by 1-based ordinal. -/
def recAt (g : RecGraph) (r : Nat) : Record := refGet g noneRecord r

/-- The non-none entity references held by a record's pointer fields. -/
def refsOf (rec : Record) : List Nat :=
  rec.fields.filterMap (fun f =>
    match f with
    | .ptrV r => if r = 0 then none else some r
    | _ => none)

/-- Append to the seen-list the elements of `xs` not yet seen, in first-seen
order. -/
def addNew (vis : List Nat) (xs : List Nat) : List Nat :=
  xs.foldl (fun acc x => if x ∈ acc then acc else acc ++ [x]) vis

/-- One traversal round: append every valid reference of an already seen
node that has not been seen yet. -/
def visitStep (g : RecGraph) (vis : List Nat) : List Nat :=
  addNew vis ((vis.flatMap (fun r => refsOf (recAt g r))).filter
    (fun x => decide (validIdx g.length x)))

/-- The walker's seen-list: valid roots in order, then repeated expansion
until the reference closure is reached (the arena size bounds the number
of rounds needed). -/
def visitOrder (g : RecGraph) (roots : List Nat) : List Nat :=
  (visitStep g)^[g.length + 1]
    (addNew [] (roots.filter (fun x => decide (validIdx g.length x))))

theorem addNew_prefix (xs : List Nat) : ∀ vis : List Nat, vis <+: addNew vis xs := by
  induction xs with
  | nil => intro vis; exact List.prefix_rfl
  | cons x xs ih =>
    intro vis
    show vis <+: addNew (if x ∈ vis then vis else vis ++ [x]) xs
    by_cases hx : x ∈ vis
    · simpa [hx] using ih vis
    · simp only [hx, if_false]
      exact List.IsPrefix.trans (List.prefix_append vis [x]) (ih (vis ++ [x]))

theorem addNew_mem (xs : List Nat) :
    ∀ vis a, a ∈ addNew vis xs ↔ a ∈ vis ∨ a ∈ xs := by
  induction xs with
  | nil => intro vis a; simp [addNew]
  | cons x xs ih =>
    intro vis a
    show a ∈ addNew (if x ∈ vis then vis else vis ++ [x]) xs ↔ _
    by_cases hx : x ∈ vis
    · rw [if_pos hx, ih]
      constructor
      · rintro (h | h)
        · exact Or.inl h
        · exact Or.inr (List.mem_cons_of_mem x h)
      · rintro (h | h)
        · exact Or.inl h
        · rcases List.mem_cons.mp h with rfl | h
          · exact Or.inl hx
          · exact Or.inr h
    · rw [if_neg hx, ih]
      simp only [List.mem_append, List.mem_singleton, List.mem_cons]
      tauto

theorem addNew_nodup (xs : List Nat) :
    ∀ vis : List Nat, vis.Nodup → (addNew vis xs).Nodup := by
  induction xs with
  | nil => intro vis h; exact h
  | cons x xs ih =>
    intro vis h
    show List.Nodup (addNew (if x ∈ vis then vis else vis ++ [x]) xs)
    by_cases hx : x ∈ vis
    · rw [if_pos hx]; exact ih vis h
    · rw [if_neg hx]
      refine ih (vis ++ [x]) ?_
      simpa [List.nodup_append] using ⟨h, hx⟩

/-- The seen-list invariant: no duplicates and only valid references. -/
def seenInv (g : RecGraph) (vis : List Nat) : Prop :=
  vis.Nodup ∧ ∀ x ∈ vis, validIdx g.length x

theorem visitStep_prefix (g : RecGraph) (vis : List Nat) : vis <+: visitStep g vis :=
  addNew_prefix _ vis

theorem visitStep_inv (g : RecGraph) (vis : List Nat) (h : seenInv g vis) :
    seenInv g (visitStep g vis) := by
  refine ⟨addNew_nodup _ vis h.1, ?_⟩
  intro x hx
  rcases (addNew_mem _ vis x).mp hx with hv | hnew
  · exact h.2 x hv
  · exact of_decide_eq_true (List.mem_filter.mp hnew).2

theorem seenInv_length (g : RecGraph) (vis : List Nat) (h : seenInv g vis) :
    vis.length ≤ g.length := by
  classical
  have hsub : vis.toFinset ⊆ Finset.Icc 1 g.length := by
    intro x hx
    have := h.2 x (List.mem_toFinset.mp hx)
    exact Finset.mem_Icc.mpr ⟨this.1, this.2⟩
  have := Finset.card_le_card hsub
  rwa [List.toFinset_card_of_nodup h.1, Nat.card_Icc, Nat.add_sub_cancel] at this

theorem iterate_inv (g : RecGraph) (init : List Nat) (h : seenInv g init) :
    ∀ k, seenInv g ((visitStep g)^[k] init) := by
  intro k
  induction k with
  | zero => simpa using h
  | succ k ih =>
    rw [Function.iterate_succ_apply' (visitStep g) k init]
    exact visitStep_inv g _ ih

theorem iterate_prefix_chain (g : RecGraph) (init : List Nat) :
    ∀ k, (visitStep g)^[k] init <+: (visitStep g)^[k + 1] init := by
  intro k
  rw [Function.iterate_succ_apply' (visitStep g) k init]
  exact visitStep_prefix g _

/-- Once the walker reaches a round that adds nothing, every later round is
identical. -/
theorem iterate_fixed_from (g : RecGraph) (init : List Nat) (k : Nat)
    (hfix : visitStep g ((visitStep g)^[k] init) = (visitStep g)^[k] init) :
    ∀ m, k ≤ m → (visitStep g)^[m] init = (visitStep g)^[k] init := by
  intro m
  induction m with
  | zero => intro h0; rw [Nat.le_zero.mp h0]
  | succ m ih =>
    intro hm
    rcases Nat.lt_or_ge k (m + 1) with hlt | hge
    · have hkm : k ≤ m := Nat.lt_succ_iff.mp hlt
      rw [Function.iterate_succ_apply' (visitStep g) m init, ih hkm, hfix]
    · have : k = m + 1 := le_antisymm hm hge
      rw [this]

/-- Some round among the first `g.length + 1` adds nothing (the seen-list
grows strictly otherwise but is bounded by the arena size). -/
theorem exists_fixed_round (g : RecGraph) (init : List Nat) (h : seenInv g init) :
    ∃ k ≤ g.length, visitStep g ((visitStep g)^[k] init) = (visitStep g)^[k] init := by
  by_contra hall
  push_neg at hall
  have grow : ∀ k, k ≤ g.length + 1 → k ≤ ((visitStep g)^[k] init).length := by
    intro k
    induction k with
    | zero => intro _; exact Nat.zero_le _
    | succ k ih =>
      intro hk
      have hkk : k ≤ g.length := by omega
      have hne := hall k hkk
      have hpre : (visitStep g)^[k] init <+: (visitStep g)^[k + 1] init :=
        iterate_prefix_chain g init k
      have hlen : ((visitStep g)^[k] init).length < ((visitStep g)^[k + 1] init).length := by
        rcases Nat.lt_or_ge ((visitStep g)^[k] init).length
            ((visitStep g)^[k + 1] init).length with hlt | hge
        · exact hlt
        · exfalso
          apply hne
          have := List.IsPrefix.eq_of_length hpre
            (le_antisymm (List.IsPrefix.length_le hpre) hge)
          rw [Function.iterate_succ_apply' (visitStep g) k init] at this
          exact this.symm
      have := ih (by omega)
      omega
  have h1 := grow (g.length + 1) (le_refl _)
  have h2 := seenInv_length g _ (iterate_inv g init h (g.length + 1))
  omega

/-- The walker's final seen-list is a fixpoint of the expansion round. -/
theorem visitOrder_fixed (g : RecGraph) (roots : List Nat) :
    visitStep g (visitOrder g roots) = visitOrder g roots := by
  classical
  have hinit : seenInv g (addNew [] (roots.filter (fun x => decide (validIdx g.length x)))) := by
    constructor
    · exact addNew_nodup _ [] List.nodup_nil
    · intro x hx
      rcases (addNew_mem _ [] x).mp hx with h0 | hf
      · simp at h0
      · exact of_decide_eq_true (List.mem_filter.mp hf).2
  obtain ⟨k, hk, hfix⟩ := exists_fixed_round g _ hinit
  unfold visitOrder
  have h1 := iterate_fixed_from g _ k hfix (g.length + 1) (by omega)
  rw [h1, hfix]

theorem visitOrder_inv (g : RecGraph) (roots : List Nat) :
    seenInv g (visitOrder g roots) := by
  apply iterate_inv
  constructor
  · exact addNew_nodup _ [] List.nodup_nil
  · intro x hx
    rcases (addNew_mem _ [] x).mp hx with h0 | hf
    · simp at h0
    · exact of_decide_eq_true (List.mem_filter.mp hf).2

/-- The reference closure property: every valid reference of a visited node
is itself visited. -/
theorem visitOrder_closed (g : RecGraph) (roots : List Nat) :
    ∀ r ∈ visitOrder g roots, ∀ x ∈ refsOf (recAt g r),
      validIdx g.length x → x ∈ visitOrder g roots := by
  intro r hr x hx hvx
  have hmem : x ∈ (visitOrder g roots).flatMap (fun r => refsOf (recAt g r)) :=
    List.mem_flatMap.mpr ⟨r, hr, hx⟩
  have hfil : x ∈ ((visitOrder g roots).flatMap (fun r => refsOf (recAt g r))).filter
      (fun x => decide (validIdx g.length x)) :=
    List.mem_filter.mpr ⟨hmem, decide_eq_true hvx⟩
  have : x ∈ visitStep g (visitOrder g roots) :=
    (addNew_mem _ _ x).mpr (Or.inr hfil)
  rwa [visitOrder_fixed g roots] at this

/-- Every valid root is visited. -/
theorem visitOrder_roots (g : RecGraph) (roots : List Nat) :
    ∀ r ∈ roots, validIdx g.length r → r ∈ visitOrder g roots := by
  intro r hr hv
  have hf : r ∈ roots.filter (fun x => decide (validIdx g.length x)) :=
    List.mem_filter.mpr ⟨hr, decide_eq_true hv⟩
  have hinit : r ∈ addNew [] (roots.filter (fun x => decide (validIdx g.length x))) :=
    (addNew_mem _ [] r).mpr (Or.inr hf)
  have hpre : addNew [] (roots.filter (fun x => decide (validIdx g.length x))) <+:
      visitOrder g roots := by
    unfold visitOrder
    generalize addNew [] (roots.filter (fun x => decide (validIdx g.length x))) = init
    induction (g.length + 1) with
    | zero => exact List.prefix_rfl
    | succ k ih => exact List.IsPrefix.trans ih (iterate_prefix_chain g init k)
  exact List.IsPrefix.subset hpre hinit

/-! ### Relabeling, roots, headers and the two codecs -/

/-- Translate an entity reference to the output ordinal assigned by the
walker's seen-list `sigma` (none stays none; the node first seen at
position `j` receives ordinal `j + 1`). -/
def refMap (sigma : List Nat) (p : Nat) : Nat :=
  if p = 0 then 0 else sigma.indexOf p + 1

/-- Relabel one field: pointers through `refMap`, all other values kept. -/
def relabelField (sigma : List Nat) : FieldVal → FieldVal
  | .ptrV p => .ptrV (refMap sigma p)
  | f => f

/-- Relabel a whole record. -/
def relabelRec (sigma : List Nat) (rec : Record) : Record :=
  ⟨rec.typ, rec.fields.map (relabelField sigma)⟩

/-- The exporter's record stream: reachable records in first-seen order,
references translated to output ordinals. -/
def walkRecords (g : RecGraph) (roots : List Nat) : List Record :=
  (visitOrder g roots).map (fun r => relabelRec (visitOrder g roots) (recAt g r))

/-- The roots of a built graph: the 1-based ordinals of its records of type
`body`, in stream order. -/
def rootsOfAux : Nat → List Record → List Nat
  | _, [] => []
  | i, rec :: recs =>
    if rec.typ = "body" then i :: rootsOfAux (i + 1) recs else rootsOfAux (i + 1) recs

/-- The root bodies the loader reports for a record stream. -/
def rootsOf (recs : RecGraph) : List Nat := rootsOfAux 1 recs

/-- Modelled from the spec: the header common to both encodings (format
version and declared record count are all the round-trip claims need). -/
structure AcisHeader where
  version : Nat
  count : Nat
deriving DecidableEq, Repr

/-- Modelled from the spec: the minimum supported export version (the
observed rejection boundary: versions below 700 are rejected). -/
def MIN_EXPORT_VERSION : Nat := 700

/-- Modelled from the spec: the oldest header version whose field layout
the loader knows. -/
def MIN_LOAD_VERSION : Nat := 400

/-- Export failure: the target version cannot represent the graph. -/
inductive ExportError where
  | unsupportedVersion (v : Nat)
deriving DecidableEq, Repr

/-- Load failures: unrecognized structure or unknown header version. -/
inductive LoadError where
  | formatError
  | unsupportedVersion (v : Nat)
deriving DecidableEq, Repr

/-- A text-codec record line: its own position, the type name, and the
typed field tokens. -/
structure SatLine where
  idx : Nat
  typ : String
  fields : List FieldVal
deriving DecidableEq, Repr

/-- A SAT document: header plus whitespace-tokenized record lines. -/
structure SatDoc where
  header : AcisHeader
  lines : List SatLine
deriving DecidableEq, Repr

/-- Lay records out as SAT lines carrying their own position. -/
def mkLines : Nat → List Record → List SatLine
  | _, [] => []
  | i, rec :: recs => ⟨i, rec.typ, rec.fields⟩ :: mkLines (i + 1) recs

/-- Check each line's leading index against its actual position. -/
def checkLines : Nat → List SatLine → Bool
  | _, [] => true
  | i, ln :: lns => (ln.idx == i) && checkLines (i + 1) lns

/-- Modelled from the spec: the binary codec's tagged chunks; a record is a
type-name chunk, its field chunks, and a terminator. -/
inductive Chunk where
  | intC (i : Int)
  | dblC (x : XReal)
  | boolC (b : Bool)
  | literalStr (s : String)
  | symC (s : String)
  | ptrC (r : Nat)
  | nameC (s : String)
  | termC
deriving DecidableEq, Repr

/-- Encode one field as its tagged chunk. -/
def fieldChunk : FieldVal → Chunk
  | .intV i => .intC i
  | .realV x => .dblC x
  | .boolV b => .boolC b
  | .strV s => .literalStr s
  | .symV s => .symC s
  | .ptrV r => .ptrC r

/-- Decode one field chunk (name and terminator chunks are not fields). -/
def chunkField : Chunk → Option FieldVal
  | .intC i => some (.intV i)
  | .dblC x => some (.realV x)
  | .boolC b => some (.boolV b)
  | .literalStr s => some (.strV s)
  | .symC s => some (.symV s)
  | .ptrC r => some (.ptrV r)
  | .nameC _ => none
  | .termC => none

/-- Encode a record as its binary chunk sequence. -/
def encodeRecordSab (rec : Record) : List Chunk :=
  Chunk.nameC rec.typ :: (rec.fields.map fieldChunk ++ [Chunk.termC])

/-- Encode a record stream as one binary chunk stream. -/
def encodeSab (recs : List Record) : List Chunk := recs.flatMap encodeRecordSab

/-- Collect field chunks up to the record terminator. -/
def takeFields : List Chunk → Option (List FieldVal × List Chunk)
  | [] => none
  | .termC :: rest => some ([], rest)
  | c :: rest =>
    match chunkField c, takeFields rest with
    | some f, some (fs, rem) => some (f :: fs, rem)
    | _, _ => none

/-- Decode a chunk stream back into records (fuel-bounded recursion; the
stream length is always enough fuel). -/
def decodeSabFuel : Nat → List Chunk → Option (List Record)
  | _, [] => some []
  | 0, _ :: _ => none
  | fuel + 1, Chunk.nameC t :: rest =>
    match takeFields rest with
    | some (fs, rem) => (decodeSabFuel fuel rem).map (fun recs => ⟨t, fs⟩ :: recs)
    | none => none
  | _ + 1, _ :: _ => none

/-- Decode a binary chunk stream into its record stream. -/
def decodeSab (cs : List Chunk) : Option (List Record) := decodeSabFuel cs.length cs

/-- A SAB document: header plus tagged chunk stream. -/
structure SabDoc where
  header : AcisHeader
  chunks : List Chunk
deriving DecidableEq, Repr

/-- Modelled from the spec: text export — reject target versions below the
minimum export version before producing any output, otherwise walk the
graph from the roots and lay the relabeled records out as indexed lines. -/
def export_sat (g : RecGraph) (roots : List Nat) (version : Nat) :
    Except ExportError SatDoc :=
  if version < MIN_EXPORT_VERSION then
    Except.error (ExportError.unsupportedVersion version)
  else
    Except.ok ⟨⟨version, (walkRecords g roots).length⟩, mkLines 0 (walkRecords g roots)⟩

/-- Modelled from the spec: binary export — same version contract as
`export_sat`, emitting tagged chunks instead of text lines. -/
def export_sab (g : RecGraph) (roots : List Nat) (version : Nat) :
    Except ExportError SabDoc :=
  if version < MIN_EXPORT_VERSION then
    Except.error (ExportError.unsupportedVersion version)
  else
    Except.ok ⟨⟨version, (walkRecords g roots).length⟩, encodeSab (walkRecords g roots)⟩

/-- Modelled from the spec: text load — check the header version is known
and the declared record count and per-line indices are consistent, then
build one node per record in stream order; roots are the body records. -/
def loadSat (doc : SatDoc) : Except LoadError (RecGraph × List Nat) :=
  if doc.header.version < MIN_LOAD_VERSION then
    Except.error (LoadError.unsupportedVersion doc.header.version)
  else if doc.header.count ≠ doc.lines.length then
    Except.error LoadError.formatError
  else if checkLines 0 doc.lines then
    Except.ok (doc.lines.map (fun ln => ⟨ln.typ, ln.fields⟩),
      rootsOf (doc.lines.map (fun ln => ⟨ln.typ, ln.fields⟩)))
  else
    Except.error LoadError.formatError

/-- Modelled from the spec: binary load — check the header version, decode
the chunk stream into records, check the declared count, build the graph. -/
def loadSab (doc : SabDoc) : Except LoadError (RecGraph × List Nat) :=
  if doc.header.version < MIN_LOAD_VERSION then
    Except.error (LoadError.unsupportedVersion doc.header.version)
  else
    match decodeSab doc.chunks with
    | some recs =>
      if doc.header.count = recs.length then
        Except.ok (recs, rootsOf recs)
      else
        Except.error LoadError.formatError
    | none => Except.error LoadError.formatError

/-! ### Codec round-trip lemmas -/

theorem mkLines_extract (recs : List Record) :
    ∀ i, (mkLines i recs).map (fun ln => Record.mk ln.typ ln.fields) = recs := by
  induction recs with
  | nil => intro i; rfl
  | cons r rs ih => intro i; simp [mkLines, ih (i + 1)]

theorem mkLines_length (recs : List Record) :
    ∀ i, (mkLines i recs).length = recs.length := by
  induction recs with
  | nil => intro i; rfl
  | cons r rs ih => intro i; simp [mkLines, ih (i + 1)]

theorem checkLines_mkLines (recs : List Record) :
    ∀ i, checkLines i (mkLines i recs) = true := by
  induction recs with
  | nil => intro i; rfl
  | cons r rs ih => intro i; simp [mkLines, checkLines, ih (i + 1)]

theorem chunkField_fieldChunk (f : FieldVal) : chunkField (fieldChunk f) = some f := by
  cases f <;> rfl

theorem takeFields_encode (fs : List FieldVal) (rest : List Chunk) :
    takeFields (fs.map fieldChunk ++ (Chunk.termC :: rest)) = some (fs, rest) := by
  induction fs with
  | nil => rfl
  | cons f fs ih => cases f <;> simp [takeFields, chunkField, ih]

theorem decodeSabFuel_encode (recs : List Record) :
    ∀ fuel, recs.length ≤ fuel → decodeSabFuel fuel (encodeSab recs) = some recs := by
  induction recs with
  | nil =>
    intro fuel _
    have : encodeSab [] = [] := rfl
    rw [this]
    cases fuel <;> rfl
  | cons r rs ih =>
    intro fuel hf
    have hfp : fuel = (fuel - 1) + 1 := by
      have : 1 ≤ fuel := le_trans (Nat.succ_le_succ (Nat.zero_le _)) hf
      omega
    have henc : encodeSab (r :: rs) =
        Chunk.nameC r.typ :: (r.fields.map fieldChunk ++ (Chunk.termC :: encodeSab rs)) := by
      show encodeRecordSab r ++ encodeSab rs = _
      simp [encodeRecordSab]
    rw [hfp, henc]
    show (match takeFields (r.fields.map fieldChunk ++ (Chunk.termC :: encodeSab rs)) with
      | some (fs, rem) => (decodeSabFuel (fuel - 1) rem).map (fun recs => ⟨r.typ, fs⟩ :: recs)
      | none => none) = some (r :: rs)
    rw [takeFields_encode]
    have hihm := ih (fuel - 1) (by simpa using Nat.le_of_succ_le_succ (hfp ▸ hf))
    simp [hihm]

theorem encodeSab_length_ge (recs : List Record) : recs.length ≤ (encodeSab recs).length := by
  induction recs with
  | nil => simp [encodeSab]
  | cons r rs ih =>
    have : encodeSab (r :: rs) = encodeRecordSab r ++ encodeSab rs := rfl
    rw [this, List.length_append, List.length_cons]
    simp only [encodeRecordSab, List.length_cons]
    omega

theorem decodeSab_encodeSab (recs : List Record) : decodeSab (encodeSab recs) = some recs :=
  decodeSabFuel_encode recs (encodeSab recs).length (encodeSab_length_ge recs)

theorem rootsOfAux_length (recs : List Record) :
    ∀ i, (rootsOfAux i recs).length = (recs.filter (fun rec => rec.typ == "body")).length := by
  induction recs with
  | nil => intro i; rfl
  | cons r rs ih =>
    intro i
    by_cases h : r.typ = "body"
    · simp [rootsOfAux, h, List.filter, ih (i + 1)]
    · have hb : (r.typ == "body") = false := by
        simpa using h
      simp [rootsOfAux, h, List.filter, hb, ih (i + 1)]

theorem recAt_map (l : List Nat) (f : Nat → Record) (j : Nat) (hj : j < l.length) :
    recAt (l.map f) (j + 1) = f (l.get ⟨j, hj⟩) := by
  unfold recAt refGet
  have hj' : j < (l.map f).length := by simpa using hj
  rw [if_neg (Nat.succ_ne_zero j), Nat.add_sub_cancel,
    List.getD_eq_getElem?_getD, List.getElem?_eq_getElem hj']
  simp

/-- C1: Round-trip identity — exporting the reachable graph of a record
arena from its body roots at a supported version and loading the result
back, through either the text or the binary codec, succeeds and yields the
same built graph for both codecs; that graph is isomorphic to the original
reachable subgraph: one record per reachable node in first-seen order
(`visitOrder` is duplicate-free), with equal type names, equal non-pointer
field values, and every pointer translated to the output ordinal of the
node it referenced (so reference topology is preserved); the number of
reloaded root bodies equals the number of reachable body records — in
particular, reloading the export of a single loaded body yields exactly
one body. -/
theorem C1_round_trip (g : RecGraph) (roots : List Nat) (V : Nat)
    (hV : MIN_EXPORT_VERSION ≤ V)
    (hwf : ∀ r < g.length + 1, ∀ x ∈ refsOf (recAt g r), validIdx g.length x) :
    ∃ satDoc sabDoc,
      export_sat g roots V = Except.ok satDoc ∧
      export_sab g roots V = Except.ok sabDoc ∧
      loadSat satDoc = Except.ok (walkRecords g roots, rootsOf (walkRecords g roots)) ∧
      loadSab sabDoc = Except.ok (walkRecords g roots, rootsOf (walkRecords g roots)) ∧
      (walkRecords g roots).length = (visitOrder g roots).length ∧
      (visitOrder g roots).Nodup ∧
      (∀ j, (hj : j < (visitOrder g roots).length) →
        (recAt (walkRecords g roots) (j + 1)).typ
            = (recAt g ((visitOrder g roots).get ⟨j, hj⟩)).typ ∧
        (recAt (walkRecords g roots) (j + 1)).fields
            = ((recAt g ((visitOrder g roots).get ⟨j, hj⟩)).fields).map
                (relabelField (visitOrder g roots)) ∧
        refMap (visitOrder g roots) ((visitOrder g roots).get ⟨j, hj⟩) = j + 1 ∧
        ∀ p ∈ refsOf (recAt g ((visitOrder g roots).get ⟨j, hj⟩)),
          p ∈ visitOrder g roots ∧
          (visitOrder g roots).getD (refMap (visitOrder g roots) p - 1) 0 = p) ∧
      (rootsOf (walkRecords g roots)).length
        = ((visitOrder g roots).filter (fun r => (recAt g r).typ == "body")).length := by
  classical
  have hinv := visitOrder_inv g roots
  have hnexp : ¬ V < MIN_EXPORT_VERSION := Nat.not_lt.mpr hV
  have hnload : ¬ V < MIN_LOAD_VERSION := by
    unfold MIN_EXPORT_VERSION at hV
    unfold MIN_LOAD_VERSION
    omega
  refine ⟨⟨⟨V, (walkRecords g roots).length⟩, mkLines 0 (walkRecords g roots)⟩,
    ⟨⟨V, (walkRecords g roots).length⟩, encodeSab (walkRecords g roots)⟩, ?_, ?_, ?_, ?_, ?_,
    hinv.1, ?_, ?_⟩
  · unfold export_sat
    rw [if_neg hnexp]
  · unfold export_sab
    rw [if_neg hnexp]
  · unfold loadSat
    rw [if_neg hnload]
    have hcnt : ¬ ((walkRecords g roots).length ≠ (mkLines 0 (walkRecords g roots)).length) := by
      rw [mkLines_length]
      exact fun h => h rfl
    rw [if_neg hcnt, if_pos (checkLines_mkLines (walkRecords g roots) 0)]
    rw [mkLines_extract]
  · unfold loadSab
    rw [if_neg hnload]
    simp only [decodeSab_encodeSab]
    simp
  · simp [walkRecords]
  · intro j hj
    have hrec : recAt (walkRecords g roots) (j + 1) =
        relabelRec (visitOrder g roots)
          (recAt g ((visitOrder g roots).get ⟨j, hj⟩)) :=
      recAt_map (visitOrder g roots) _ j hj
    have hmem : (visitOrder g roots).get ⟨j, hj⟩ ∈ visitOrder g roots :=
      List.get_mem _ _ _
    have hval : validIdx g.length ((visitOrder g roots).get ⟨j, hj⟩) :=
      hinv.2 _ hmem
    refine ⟨by rw [hrec]; rfl, by rw [hrec]; rfl, ?_, ?_⟩
    · unfold refMap
      rw [if_neg (by have := hval.1; omega : ¬ (visitOrder g roots).get ⟨j, hj⟩ = 0)]
      have hix := List.indexOf_getElem hinv.1 j hj
      simpa using hix
    · intro p hp
      have hpv : validIdx g.length p :=
        hwf _ (Nat.lt_succ_of_le hval.2) p hp
      have hpin : p ∈ visitOrder g roots :=
        visitOrder_closed g roots _ hmem p hp hpv
      refine ⟨hpin, ?_⟩
      unfold refMap
      rw [if_neg (by have := hpv.1; omega : ¬ p = 0), Nat.add_sub_cancel]
      have hidx : (visitOrder g roots).indexOf p < (visitOrder g roots).length :=
        List.indexOf_lt_length.mpr hpin
      rw [List.getD_eq_getElem?_getD, List.getElem?_eq_getElem hidx]
      simpa using List.getElem_indexOf hidx
  · unfold rootsOf
    rw [rootsOfAux_length]
    unfold walkRecords
    rw [List.filter_map]
    rw [List.length_map]
    exact congrArg List.length (List.filter_congr (fun x _ => rfl))

/-- A small well-formed record graph: one body whose lump is linked back
and forward, used to instantiate the round-trip and version theorems. -/
def sampleRecGraph : RecGraph :=
  [⟨"body", [FieldVal.ptrV 2, FieldVal.ptrV 0]⟩,
   ⟨"lump", [FieldVal.ptrV 3, FieldVal.ptrV 1]⟩,
   ⟨"shell", [FieldVal.ptrV 2, FieldVal.boolV false]⟩]

/-- Witness for C1: the sample single-body graph exported at version 700. -/
theorem C1_round_trip_witness :
    ∃ satDoc sabDoc,
      export_sat sampleRecGraph [1] 700 = Except.ok satDoc ∧
      export_sab sampleRecGraph [1] 700 = Except.ok sabDoc ∧
      loadSat satDoc = Except.ok (walkRecords sampleRecGraph [1],
        rootsOf (walkRecords sampleRecGraph [1])) ∧
      loadSab sabDoc = Except.ok (walkRecords sampleRecGraph [1],
        rootsOf (walkRecords sampleRecGraph [1])) ∧
      (walkRecords sampleRecGraph [1]).length = (visitOrder sampleRecGraph [1]).length ∧
      (visitOrder sampleRecGraph [1]).Nodup ∧
      (∀ j, (hj : j < (visitOrder sampleRecGraph [1]).length) →
        (recAt (walkRecords sampleRecGraph [1]) (j + 1)).typ
            = (recAt sampleRecGraph ((visitOrder sampleRecGraph [1]).get ⟨j, hj⟩)).typ ∧
        (recAt (walkRecords sampleRecGraph [1]) (j + 1)).fields
            = ((recAt sampleRecGraph
                ((visitOrder sampleRecGraph [1]).get ⟨j, hj⟩)).fields).map
                (relabelField (visitOrder sampleRecGraph [1])) ∧
        refMap (visitOrder sampleRecGraph [1])
            ((visitOrder sampleRecGraph [1]).get ⟨j, hj⟩) = j + 1 ∧
        ∀ p ∈ refsOf (recAt sampleRecGraph ((visitOrder sampleRecGraph [1]).get ⟨j, hj⟩)),
          p ∈ visitOrder sampleRecGraph [1] ∧
          (visitOrder sampleRecGraph [1]).getD
            (refMap (visitOrder sampleRecGraph [1]) p - 1) 0 = p) ∧
      (rootsOf (walkRecords sampleRecGraph [1])).length
        = ((visitOrder sampleRecGraph [1]).filter
            (fun r => (recAt sampleRecGraph r).typ == "body")).length :=
  C1_round_trip sampleRecGraph [1] 700 (by decide) (by decide)

/-- C2: Version rejection boundary — exporting any record graph at a
target version below 700 fails with `ExportError` through both the text
and the binary exporter before any output is produced, and exporting at a
version of at least 700 succeeds through both. -/
theorem C2_version_rejection (g : RecGraph) (roots : List Nat) (V : Nat) :
    (V < 700 →
      export_sat g roots V = Except.error (ExportError.unsupportedVersion V) ∧
      export_sab g roots V = Except.error (ExportError.unsupportedVersion V)) ∧
    (700 ≤ V →
      (∃ doc, export_sat g roots V = Except.ok doc) ∧
      (∃ doc, export_sab g roots V = Except.ok doc)) := by
  constructor
  · intro h
    constructor
    · unfold export_sat
      rw [if_pos (by unfold MIN_EXPORT_VERSION; omega)]
    · unfold export_sab
      rw [if_pos (by unfold MIN_EXPORT_VERSION; omega)]
  · intro h
    constructor
    · refine ⟨⟨⟨V, (walkRecords g roots).length⟩, mkLines 0 (walkRecords g roots)⟩, ?_⟩
      unfold export_sat
      rw [if_neg (by unfold MIN_EXPORT_VERSION; omega)]
    · refine ⟨⟨⟨V, (walkRecords g roots).length⟩, encodeSab (walkRecords g roots)⟩, ?_⟩
      unfold export_sab
      rw [if_neg (by unfold MIN_EXPORT_VERSION; omega)]

/-- Witness for C2: version 400 is rejected and version 700 accepted on
the sample graph, by both exporters. -/
theorem C2_version_rejection_witness :
    (export_sat sampleRecGraph [1] 400
        = Except.error (ExportError.unsupportedVersion 400) ∧
      export_sab sampleRecGraph [1] 400
        = Except.error (ExportError.unsupportedVersion 400)) ∧
    ((∃ doc, export_sat sampleRecGraph [1] 700 = Except.ok doc) ∧
      (∃ doc, export_sab sampleRecGraph [1] 700 = Except.ok doc)) :=
  ⟨(C2_version_rejection sampleRecGraph [1] 400).1 (by decide),
   (C2_version_rejection sampleRecGraph [1] 700).2 (by decide)⟩

/-! ### Transform serialization (C7) -/

/-- Format a rational field value the way the text codec prints numbers:
integral values without a fraction part. -/
def fmtQ (q : ℚ) : String :=
  if q.den = 1 then toString q.num else toString q.num ++ "/" ++ toString q.den

/-- Format a stored real as a text token. -/
def fmtXReal : XReal → String
  | .val q => fmtQ q
  | .pinf => "I"
  | .ninf => "-I"

/-- Modelled from the spec: the content tokens of a serialized Transform
record — the nine rotation entries row-major, the three translation
components, the scale factor (always one), then the three flag words
`no_rotate|rotate`, `no_reflect|reflect`, `no_shear|shear`. -/
def transformTokens (t : Transform) : List String :=
  let entry := fun (i j : Nat) => fmtXReal ((t.matrix.getD i []).getD j (xr 0))
  [entry 0 0, entry 0 1, entry 0 2,
   entry 1 0, entry 1 1, entry 1 2,
   entry 2 0, entry 2 1, entry 2 2,
   entry 3 0, entry 3 1, entry 3 2,
   fmtQ 1,
   if t.rotate then "rotate" else "no_rotate",
   if t.reflect then "reflect" else "no_reflect",
   if t.shear then "shear" else "no_shear"]

/-- Modelled from the spec: the text data exporter writes the Transform
record content as individual tokens. -/
def satTransformData (t : Transform) : List String := transformTokens t

/-- Modelled from the spec: the binary data exporter writes the Transform
record content as a single literal-string chunk holding the space-joined
token content. -/
def sabTransformData (t : Transform) : List Chunk :=
  [Chunk.literalStr (String.intercalate " " (transformTokens t))]

/-- A freshly constructed Transform holding the identity matrix with no
rotation, reflection or shear. -/
def identityTransform : Transform :=
  ⟨[[xr 1, xr 0, xr 0, xr 0],
    [xr 0, xr 1, xr 0, xr 0],
    [xr 0, xr 0, xr 1, xr 0],
    [xr 0, xr 0, xr 0, xr 1]], false, false, false⟩

/-- C7: Identity transform serialization — serializing a Transform holding
the identity matrix through the binary data exporter yields exactly one
chunk, the literal-string chunk
`"1 0 0 0 1 0 0 0 1 0 0 0 1 no_rotate no_reflect no_shear"`, and the text
data exporter yields tokens whose space-joined content equals that same
string. -/
theorem C7_identity_transform :
    sabTransformData identityTransform =
      [Chunk.literalStr "1 0 0 0 1 0 0 0 1 0 0 0 1 no_rotate no_reflect no_shear"] ∧
    String.intercalate " " (satTransformData identityTransform) =
      "1 0 0 0 1 0 0 0 1 0 0 0 1 no_rotate no_reflect no_shear" := by
  constructor
  · rfl
  · rfl

/-! ### The legacy entity wrapper registry (C8), embedded from
src/ezdxf/legacy/factory.py -/

/-- The wrapper classes named in `ENTITY_WRAPPERS` of
src/ezdxf/legacy/factory.py, plus the default `GraphicEntity`. -/
inductive WrapperK where
  | Layer | DimStyle | Linetype | AppID | Style | UCS | View | VPort
  | Line | PointW | Circle | Arc | Trace | Solid | Face3D | Text
  | Attrib | Attdef | Insert | Block | EndBlk | Polyline | VertexW
  | SeqEnd | Shape | Viewport | Dimension | GraphicEntity
deriving DecidableEq, Repr

/-- A raw tag group stream of one DXF record: the record's type name plus
its opaque tag fields. -/
structure DXFTags where
  dxftype : String
  tags : List (Nat × String)
deriving DecidableEq, Repr

/-- The `ENTITY_WRAPPERS` table of src/ezdxf/legacy/factory.py. -/
def ENTITY_WRAPPERS : List (String × WrapperK) :=
  [("LAYER", .Layer), ("DIMSTYLE", .DimStyle), ("LTYPE", .Linetype),
   ("APPID", .AppID), ("STYLE", .Style), ("UCS", .UCS), ("VIEW", .View),
   ("VPORT", .VPort),
   ("LINE", .Line), ("POINT", .PointW), ("CIRCLE", .Circle), ("ARC", .Arc),
   ("TRACE", .Trace), ("SOLID", .Solid), ("3DFACE", .Face3D), ("TEXT", .Text),
   ("ATTRIB", .Attrib), ("ATTDEF", .Attdef), ("INSERT", .Insert),
   ("BLOCK", .Block), ("ENDBLK", .EndBlk), ("POLYLINE", .Polyline),
   ("VERTEX", .VertexW), ("SEQEND", .SeqEnd), ("SHAPE", .Shape),
   ("VIEWPORT", .Viewport), ("DIMENSION", .Dimension)]

/-- `LegacyDXFFactory.DEFAULT_WRAPPER`: the generic opaque-field holder. -/
def DEFAULT_WRAPPER : WrapperK := WrapperK.GraphicEntity

/-- A wrapped entity: the chosen wrapper class holding the raw tags
unchanged. -/
structure WrappedEntity where
  wrapper : WrapperK
  tags : DXFTags
deriving DecidableEq, Repr

/-- `LegacyDXFFactory.wrap_entity`: look the record's type name up in the
wrapper table, falling back to the default wrapper, and hold the raw tags
(the `cast` refinement of some known wrappers is outside the claim and the
available source). -/
def wrap_entity (tags : DXFTags) : WrappedEntity :=
  ⟨(ENTITY_WRAPPERS.lookup tags.dxftype).getD DEFAULT_WRAPPER, tags⟩

/-- `LegacyDXFFactory.new_entity`: creating a new entity by type name
instead raises for unsupported types. -/
def new_entity (type_ : String) : Except String WrapperK :=
  match ENTITY_WRAPPERS.lookup type_ with
  | some w => Except.ok w
  | none => Except.error ("Unsupported entity type: " ++ type_)

/-- Wrapping every record of a stream (the load path over stored tags). -/
def loadStream (ts : List DXFTags) : List WrappedEntity := ts.map wrap_entity

theorem lookup_eq_none_of_not_mem (a : String) (l : List (String × WrapperK))
    (h : a ∉ l.map Prod.fst) : List.lookup a l = none := by
  induction l with
  | nil => rfl
  | cons p ps ih =>
    simp only [List.map_cons, List.mem_cons] at h
    push_neg at h
    have hb : (a == p.1) = false := by
      simpa using h.1
    rcases p with ⟨k, v⟩
    simp only [List.lookup]
    rw [hb]
    exact ih h.2

/-- C8: Unknown-type tolerance — for every record type name not registered
in the wrapper table, `wrap_entity` selects the generic opaque-field
holder `GraphicEntity` instead of failing, keeps the raw tags unchanged,
and therefore wrapping a whole stream containing unrecognized type names
never aborts: it produces exactly one wrapped entity per record. -/
theorem C8_unknown_type_fallback (name : String)
    (h : name ∉ ENTITY_WRAPPERS.map Prod.fst) :
    (∀ tags : DXFTags, tags.dxftype = name →
      (wrap_entity tags).wrapper = DEFAULT_WRAPPER ∧ (wrap_entity tags).tags = tags) ∧
    (∀ ts : List DXFTags, (loadStream ts).length = ts.length) := by
  constructor
  · intro tags htype
    constructor
    · show (ENTITY_WRAPPERS.lookup tags.dxftype).getD DEFAULT_WRAPPER = DEFAULT_WRAPPER
      rw [htype, lookup_eq_none_of_not_mem name ENTITY_WRAPPERS h]
      rfl
    · rfl
  · intro ts
    exact List.length_map ts wrap_entity

/-- Witness for C8: the unregistered name `UNKNOWN_TYPE`. -/
theorem C8_unknown_type_fallback_witness :
    (∀ tags : DXFTags, tags.dxftype = "UNKNOWN_TYPE" →
      (wrap_entity tags).wrapper = DEFAULT_WRAPPER ∧ (wrap_entity tags).tags = tags) ∧
    (∀ ts : List DXFTags, (loadStream ts).length = ts.length) :=
  C8_unknown_type_fallback "UNKNOWN_TYPE" (by decide)

end AcisSpec
